import Mathlib

/-!
Verification development for the rtf-text-color-parser repository.

The definitions below are a shallow embedding of the Python sources
`src/parser/rtf_color_parser.py` and
`src/parser/batch_conversion/discussion_converter.py`.
Strings are modelled as `List Char` (Python `str` indexing and slicing is
per code point, which `List Char` matches).  Python functions that can raise
are modelled as `Except String`-valued functions; the error string mirrors
the exception raised by the source.  Regular-expression scans are modelled
by explicit recursive scanners; each scanner's doc comment states the
regex it models and, where the model scans char-by-char instead of
skipping over a whole match, why that is equivalent for that particular
pattern (no later match of the pattern can begin strictly inside an
earlier match).  The regex class `\d` is modelled as the ASCII digits and
`\s` as ASCII whitespace; the documents handled by this code are ASCII
in the relevant positions.
-/

namespace RTF

/-- Numeric value of a digit string, as Python `int` computes it for a
string of ASCII digits (`int("007") = 7`). -/
def digitsVal (ds : List Char) : Nat :=
  ds.foldl (fun a c => 10 * a + (c.toNat - 48)) 0

/-- Length of the maximal leading run of ASCII digits; models the greedy
match of `\d*` at the current position. -/
def digitRun : List Char → Nat
  | [] => 0
  | c :: t => if c.isDigit then digitRun t + 1 else 0

/-- Does the list start with an ASCII digit?  Models `\d` succeeding at
the current position. -/
def startsWithDigit : List Char → Bool
  | [] => false
  | c :: _ => c.isDigit

/-- Does the list start with the two literal characters `cf`? -/
def startsCf : List Char → Bool
  | 'c' :: 'f' :: _ => true
  | _ => false

/-- Does the list start with `cf` followed by at least one digit? -/
def startsCfDigit : List Char → Bool
  | 'c' :: 'f' :: d :: _ => d.isDigit
  | _ => false

/-- Shift the start offsets of a list of (start, length) matches. -/
def shiftM (n : Nat) (l : List (Nat × Nat)) : List (Nat × Nat) :=
  l.map (fun p => (p.1 + n, p.2))

/-- The marker character the source hardcodes in `output_txt_script`
(lines 236 and 253 of `rtf_color_parser.py`): `'\x00'`. -/
def markerCh : Char := Char.ofNat 0

/-- `RTFParser.UNLIKELY_CHARS`: the fixed candidate list of non-printable
marker characters `'\x00'` .. `'\x04'`. -/
def UNLIKELY_CHARS : List Char :=
  [Char.ofNat 0, Char.ofNat 1, Char.ofNat 2, Char.ofNat 3, Char.ofNat 4]

/-- The marker-char selection loop of `RTFParser.__init__` (lines 128-135):
the first candidate of `UNLIKELY_CHARS` that does not occur in the
document (`re.search` of a single literal character is membership);
`none` models the `NoSafeMarkerChar` failure path. -/
def pick_marker_char (content : List Char) : Option Char :=
  UNLIKELY_CHARS.find? (fun c => !(content.contains c))

/-- Models `re.sub(r'\\cf(\d+)', '\x00cf\1', rtf_content)` (line 236):
every backslash that begins a `\cf<digits>` occurrence is replaced by the
hardcoded `'\x00'`; everything else is copied.  Char-by-char scanning
equals `re.sub`'s non-overlapping scan here because a match of the
pattern is `\`, `c`, `f`, digits, and no later match can begin inside
that span (its non-initial characters are never a backslash). -/
def protect_color_tags : List Char → List Char
  | [] => []
  | c :: t =>
    if c = '\\' ∧ startsCfDigit t then markerCh :: protect_color_tags t
    else c :: protect_color_tags t

/-- The leftmost match of `re.search(r'\\cf([\d]*)', s)` used by
`_next_rtf_color_tag_idx` (line 501): returns the match start and the
length of the (possibly empty) greedy digit group. -/
def findBackslashCf : List Char → Option (Nat × Nat)
  | [] => none
  | c :: t =>
    if c = '\\' ∧ startsCf t then some (0, digitRun (t.drop 2))
    else (findBackslashCf t).map (fun p => (p.1 + 1, p.2))

/-- All occurrences of `\cf` with their greedy digit groups, in document
order, as the repeated suffix search of `color_tag_gen` (lines 336-360)
produces them: `color_tag_gen` repeatedly takes the leftmost match of
`\\cf([\d]*)` and resumes right after it; since no occurrence of `\cf`
can begin strictly inside a match span (the span's non-initial characters
are `c`, `f` and digits, never a backslash), that is the same as
collecting every occurrence in a single left-to-right scan. -/
def findAllBScf : List Char → List (Nat × List Char)
  | [] => []
  | c :: t =>
    if c = '\\' ∧ startsCf t then
      (0, (t.drop 2).takeWhile Char.isDigit) ::
        (findAllBScf t).map (fun p => (p.1 + 1, p.2))
    else (findAllBScf t).map (fun p => (p.1 + 1, p.2))

/-- The dict yielded for one RTF color tag by `color_tag_gen`. -/
structure TagInfo where
  tag_start : Nat
  tag_len : Nat
  rgb_str : String
deriving DecidableEq

/-- Lookup in the color dict `{color_num : rgb_str}`. -/
def lookupNat (d : List (Nat × String)) (k : Nat) : Option String :=
  (d.find? (fun p => p.1 == k)).map (fun p => p.2)

/-- Processing of the occurrence list by `color_tag_gen` together with
`_next_rtf_color_tag_idx` (lines 336-360 and 486-519): a digit-less
occurrence raises `ValueError` (in the source, `int('')` on the empty
group 1), an unknown color number raises `ValueError`, otherwise a
`TagInfo` is yielded and scanning continues. -/
def tags_of_occs (dict : List (Nat × String)) : List (Nat × List Char) → Except String (List TagInfo)
  | [] => .ok []
  | (st, ds) :: rest =>
    if ds = [] then
      .error "Found RTF color tag that does not end with a proper integer"
    else
      match lookupNat dict (digitsVal ds) with
      | none => .error "Cannot find RGB string from RTF color number"
      | some rgb =>
        match tags_of_occs dict rest with
        | .error e => .error e
        | .ok tl => .ok (⟨st, 3 + ds.length, rgb⟩ :: tl)

/-- `color_tag_gen(rtf_txt, rtf_color_dict)`, run to exhaustion: the list
of color-tag descriptors in document order, or the first error raised. -/
def color_tag_gen (dict : List (Nat × String)) (s : List Char) : Except String (List TagInfo) :=
  tags_of_occs dict (findAllBScf s)

/-- Does the text contain an occurrence of `\cf` that is not followed by
at least one digit? -/
def hasBadCf : List Char → Bool
  | [] => false
  | c :: t =>
    (decide (c = '\\') && startsCf t && !startsWithDigit (t.drop 2)) || hasBadCf t

/-- One conversation turn: the jsonl object `{cur_name : txt}` built by
`output_txt_script`. -/
structure Turn where
  name : String
  text : List Char
deriving DecidableEq

/-- Dict lookup in a string-keyed map, modelling `tagmap[key]`. -/
def dictLookup (m : List (String × String)) (k : String) : Option String :=
  (m.find? (fun p => p.1 == k)).map (fun p => p.2)

/-- The name-resolution loop of `output_txt_script` (lines 219-230): for
each tag, `tagmap[tag_info['rgb_str']]`; a missing entry raises
`ValueError` naming the offset and color. -/
def resolve_names (tagmap : List (String × String)) : List TagInfo → Except String (List String)
  | [] => .ok []
  | ti :: rest =>
    match dictLookup tagmap ti.rgb_str with
    | none => .error "Color spec is not found in tagmap"
    | some name =>
      match resolve_names tagmap rest with
      | .error e => .error e
      | .ok tl => .ok (name :: tl)

/-- All matches of `re.finditer('\x00cf(\d+)', clean_txt)` (line 254) as
(start, length) pairs in document order.  Char-by-char scanning equals
`finditer`'s non-overlapping scan for this pattern: a match span is
`'\x00'`, `c`, `f`, digits, and none of its non-initial characters is
`'\x00'`, so no later match can begin inside an earlier span. -/
def findMatches : List Char → List (Nat × Nat)
  | [] => []
  | c :: t =>
    if c = markerCh ∧ startsCfDigit t then
      (0, 3 + digitRun (t.drop 2)) :: shiftM 1 (findMatches t)
    else shiftM 1 (findMatches t)

/-- Python slice `s[a:b]`. -/
def sliceFrom (s : List Char) (a b : Nat) : List Char :=
  (s.take b).drop a

/-- The span slice of lines 261-264: one leading space is cut when the
character at the cursor is a space. -/
def spanText (clean : List Char) (idx tagStart : Nat) (ch : Char) : List Char :=
  if ch = ' ' then sliceFrom clean (idx + 1) tagStart
  else sliceFrom clean idx tagStart

/-- The per-marker loop of `output_txt_script` (lines 255-285) over the
matches of the protected color tags.  State: `idx` (cursor just past the
previous tag), `cur` (the pending movie-script name), `i` (index into the
resolved tag names).  `clean.get? idx` models `clean_txt[idx]`, whose
out-of-range access raises `IndexError`; `names.get? i` models
`tags_info[i]` likewise.  Returns the emitted turns plus the final cursor
and pending name. -/
def segLoop (clean : List Char) (names : List String) :
    List (Nat × Nat) → Nat → String → Nat → Except String (List Turn × Nat × String)
  | [], idx, cur, _ => .ok ([], idx, cur)
  | (tagStart, tagLen) :: rest, idx, cur, i =>
    match clean.get? idx with
    | none => .error "string index out of range"
    | some ch =>
      match names.get? i with
      | none => .error "list index out of range"
      | some nm =>
        if spanText clean idx tagStart ch = [] then
          segLoop clean names rest (tagStart + tagLen) nm (i + 1)
        else
          match segLoop clean names rest (tagStart + tagLen) nm (i + 1) with
          | .error e => .error e
          | .ok (turns, endIdx, endCur) =>
            .ok (⟨cur, spanText clean idx tagStart ch⟩ :: turns, endIdx, endCur)

/-- The post-loop emission of the trailing span (lines 287-298): the
source first evaluates `clean_txt[idx]` (an `IndexError` when `idx` is
past the end), then slices off one leading space if that character is a
space, and emits the last jsonl object. -/
def trailing_emit (clean : List Char) (idx : Nat) (cur : String) : Except String Turn :=
  match clean.get? idx with
  | none => .error "string index out of range"
  | some ch =>
    .ok ⟨cur, if ch = ' ' then clean.drop (idx + 1) else clean.drop idx⟩

/-- The turn-segmentation phase of `output_txt_script` (lines 245-298),
acting on the cleaned text and the list of resolved tag names: initial
pending name is `tagmap['RGB(0,0,0)']` with `''` on `KeyError`
(lines 246-251); then the per-marker loop; then the post-loop emission of
the trailing span. -/
def output_txt_turns (clean : List Char) (names : List String)
    (tagmap : List (String × String)) : Except String (List Turn) :=
  let cur0 := match dictLookup tagmap "RGB(0,0,0)" with
              | some n => n
              | none => ""
  match segLoop clean names (findMatches clean) 0 cur0 0 with
  | .error e => .error e
  | .ok (turns, idx, cur) =>
    match trailing_emit clean idx cur with
    | .error e => .error e
    | .ok t => .ok (turns ++ [t])

/-- The whole of `output_txt_script(rtf_content, rtf_color_dict, tagmap)`
with `collect_output=True`.  The call `rtf_to_text` (the external striprtf
collaborator) is a parameter. -/
def output_txt_script (rtf_to_text : List Char → List Char)
    (rtf_content : List Char) (rtf_color_dict : List (Nat × String))
    (tagmap : List (String × String)) : Except String (List Turn) :=
  match color_tag_gen rtf_color_dict rtf_content with
  | .error e => .error e
  | .ok tags =>
    match resolve_names tagmap tags with
    | .error e => .error e
    | .ok names =>
      output_txt_turns (rtf_to_text (protect_color_tags rtf_content)) names tagmap

/-- Exactly one leading space removed, if present: the span adjustment of
lines 261-264 and 289-292 expressed as a function of the span. -/
def stripSp (s : List Char) : List Char :=
  match s with
  | [] => []
  | c :: t => if c = ' ' then t else c :: t

/-- The protected form of one color tag in the cleaned text:
`'\x00'`, `c`, `f`, then the digit group. -/
def protTag (d : List Char) : List Char :=
  markerCh :: 'c' :: 'f' :: d

/-- ASCII whitespace, modelling the regex class `\s`. -/
def pyIsSpace (c : Char) : Bool :=
  c = ' ' || c = Char.ofNat 9 || c = Char.ofNat 10 || c = Char.ofNat 13 ||
  c = Char.ofNat 11 || c = Char.ofNat 12

/-- Python `str.upper()` on the ASCII letters, as `check_tagmap` applies
before dispatching on the prefix. -/
def pyUpper (s : List Char) : List Char :=
  s.map Char.toUpper

/-- Greedy `\s*`. -/
def skipSpaces (s : List Char) : List Char :=
  s.dropWhile pyIsSpace

/-- The anchored match
`re.match(r"^RGB\(\s*(\d+)\s*,\s*(\d+)\s*,\s*(\d+)\s*\)$", rgb_string)`
of `validate_rgb_string` (line 585), returning the three captured integer
values.  The greedy `\s*` and `(\d+)` are deterministic here because
whitespace, digits and the literal separators are disjoint character
sets, so no backtracking can change the outcome. -/
def parseRGBTriple (s : List Char) : Option (Nat × Nat × Nat) :=
  if ['R', 'G', 'B', '('].isPrefixOf s then
    let s1 := skipSpaces (s.drop 4)
    let d1 := s1.takeWhile Char.isDigit
    if d1 = [] then none else
    match skipSpaces (s1.drop d1.length) with
    | ',' :: s3 =>
      let s4 := skipSpaces s3
      let d2 := s4.takeWhile Char.isDigit
      if d2 = [] then none else
      match skipSpaces (s4.drop d2.length) with
      | ',' :: s6 =>
        let s7 := skipSpaces s6
        let d3 := s7.takeWhile Char.isDigit
        if d3 = [] then none else
        match skipSpaces (s7.drop d3.length) with
        | [')'] => some (digitsVal d1, digitsVal d2, digitsVal d3)
        | _ => none
      | _ => none
    | _ => none
  else none

/-- `RTFParser.validate_rgb_string` (lines 570-614): regex mismatch and
out-of-range components each raise `ValueError`; otherwise `True`. -/
def validate_rgb_string (rgb_string : List Char) : Except String Bool :=
  match parseRGBTriple rgb_string with
  | none =>
    .error "RGB specification must be of the form RGB(<int>,<int>,<int>), with ints between 0 and 255"
  | some (r, g, b) =>
    if r ≤ 255 ∧ g ≤ 255 ∧ b ≤ 255 then .ok true
    else .error "Valid RGB ints are between 0 and 255"

/-- `RTFParser.validate_rgb_hex_string` (lines 620-636): the anchored
match of `^#[0-9a-fA-F]{6}$`. -/
def validate_rgb_hex_string (hex_string : List Char) : Except String Bool :=
  match hex_string with
  | '#' :: rest =>
    if rest.length = 6 ∧ rest.all (fun c => c.isDigit || ('a' ≤ c ∧ c ≤ 'f') || ('A' ≤ c ∧ c ≤ 'F')) then
      .ok true
    else .error "String is not of form hash-rrggbb of hex numbers"
  | _ => .error "String is not of form hash-rrggbb of hex numbers"

/-- `RTFParser.check_tagmap` (lines 536-564) for string-keyed maps (the
`type(key) != str` guard can never fire then).  Note what the source
does: it iterates over the items, uppercases each item's VALUE, and as
soon as a value starts with `RGB` or `#` it RETURNS that single value's
validation result; values of any other shape are skipped; an exhausted
loop (and the empty map) returns `True`. -/
def check_tagmap : List (String × String) → Except String Bool
  | [] => .ok true
  | (_, v) :: rest =>
    let rgb := pyUpper v.toList
    if ['R', 'G', 'B'].isPrefixOf rgb then validate_rgb_string rgb
    else if ['#'].isPrefixOf rgb then validate_rgb_hex_string rgb
    else check_tagmap rest

/-- The literal `\colortbl;` that `make_color_tbl` searches for. -/
def colortblLit : List Char :=
  ['\\', 'c', 'o', 'l', 'o', 'r', 't', 'b', 'l', ';']

/-- The leftmost match of `re.search(r'\\colortbl;([^}]+)', rtf_content)`
(line 682), returning the captured group: the maximal nonempty run of
non-`}` characters after the literal.  A position where the literal is
followed immediately by `}` is not a match and the search moves on, as in
the source regex. -/
def findColortbl : List Char → Option (List Char)
  | [] => none
  | c :: t =>
    let s := c :: t
    if colortblLit.isPrefixOf s ∧ (s.drop 10).takeWhile (fun x => x ≠ '}') ≠ [] then
      some ((s.drop 10).takeWhile (fun x => x ≠ '}'))
    else findColortbl t

/-- A match of `\\red(\d+)\\green(\d+)\\blue(\d+);` anchored at the start
of `s`, returning the three digit groups.  Greedy `(\d+)` is
deterministic: each group is followed by a literal starting with a
non-digit. -/
def tryTriple (s : List Char) : Option (List Char × List Char × List Char) :=
  if ['\\', 'r', 'e', 'd'].isPrefixOf s then
    let s1 := s.drop 4
    let d1 := s1.takeWhile Char.isDigit
    if d1 = [] then none else
    let s2 := s1.drop d1.length
    if ['\\', 'g', 'r', 'e', 'e', 'n'].isPrefixOf s2 then
      let s3 := s2.drop 6
      let d2 := s3.takeWhile Char.isDigit
      if d2 = [] then none else
      let s4 := s3.drop d2.length
      if ['\\', 'b', 'l', 'u', 'e'].isPrefixOf s4 then
        let s5 := s4.drop 5
        let d3 := s5.takeWhile Char.isDigit
        if d3 = [] then none else
        match s5.drop d3.length with
        | ';' :: _ => some (d1, d2, d3)
        | _ => none
      else none
    else none
  else none

/-- All matches of
`re.findall(r'\\red(\d+)\\green(\d+)\\blue(\d+);', color_table)`
(line 690) in order.  Char-by-char scanning equals `findall`'s
non-overlapping scan for this pattern: a new match must begin with
`\red`, and inside a match span the only backslashes begin `\green` and
`\blue`, so no later match can begin strictly inside an earlier one. -/
def color_entries : List Char → List (List Char × List Char × List Char)
  | [] => []
  | c :: t =>
    match tryTriple (c :: t) with
    | some tr => tr :: color_entries t
    | none => color_entries t

/-- The f-string `f"RGB({int(r)},{int(g)},{int(b)})"` of line 696. -/
def fmtRGB (tr : List Char × List Char × List Char) : String :=
  "RGB(" ++ toString (digitsVal tr.1) ++ "," ++ toString (digitsVal tr.2.1) ++
    "," ++ toString (digitsVal tr.2.2) ++ ")"

/-- `RTFParser.make_color_tbl` (lines 653-698): no color-table match
raises `ValueError` (the `MalformedDocument` failure of the spec);
otherwise the entries are enumerated and slot `i+1` maps to the `i`-th
declared triple, formatted. -/
def make_color_tbl (rtf_content : List Char) : Except String (List (Nat × String)) :=
  match findColortbl rtf_content with
  | none => .error "File does not contain an RTF color table"
  | some grp =>
    .ok ((color_entries grp).enum.map (fun p => (p.1 + 1, fmtRGB p.2)))

/-- The final path component: everything after the last `/`. -/
def afterLastSlash (s : List Char) : List Char :=
  (s.reverse.takeWhile (fun c => c ≠ '/')).reverse

/-- Python `str.rfind('.')` on the name, as `pathlib` uses it. -/
def lastDotIdx (name : List Char) : Option Nat :=
  let k := (name.reverse.takeWhile (fun c => c ≠ '.')).length
  if k = name.length then none else some (name.length - 1 - k)

/-- `pathlib.Path(fname).stem`: the final component stripped of its last
suffix; a dot at position 0 or at the very end does not start a
suffix. -/
def pyStem (fname : List Char) : List Char :=
  let name := afterLastSlash fname
  match lastDotIdx name with
  | none => name
  | some i => if 0 < i ∧ i < name.length - 1 then name.take i else name

/-- ASCII lowercase letter, the regex class `[a-z]`. -/
def isLowerAZ (c : Char) : Bool :=
  'a' ≤ c && c ≤ 'z'

/-- ASCII uppercase letter, the regex class `[A-Z]`. -/
def isUpperAZ (c : Char) : Bool :=
  'A' ≤ c && c ≤ 'Z'

/-- The shape every alphabetic run is claimed to have: nonempty, and
either all-lowercase or one uppercase letter followed by lowercase
letters (the spec's lower/upper-case boundary rule). -/
def runShape (r : List Char) : Prop :=
  r ≠ [] ∧
    ((∀ c ∈ r, isLowerAZ c) ∨
     ∃ c t, r = c :: t ∧ isUpperAZ c ∧ ∀ x ∈ t, isLowerAZ x)

/-- State machine equal to `re.findall(r'[a-z]+|[A-Z][a-z]*', s)`
(line 191 of `discussion_converter.py`): `acc` is the reversed run in
progress (empty when outside a run).  A lowercase letter extends the
current run (both alternatives end in a maximal `[a-z]*`/`[a-z]+` tail,
so `findall`'s leftmost-longest scan also absorbs it); an uppercase
letter closes the current run and opens a new one; any other character
closes the current run. -/
def runsGo : List Char → List Char → List (List Char)
  | [], acc => if acc = [] then [] else [acc.reverse]
  | c :: t, acc =>
    if isLowerAZ c then runsGo t (c :: acc)
    else if isUpperAZ c then
      (if acc = [] then runsGo t [c] else acc.reverse :: runsGo t [c])
    else
      (if acc = [] then runsGo t [] else acc.reverse :: runsGo t [])

/-- The alphabetic runs of a string, in order. -/
def findRuns (s : List Char) : List (List Char) :=
  runsGo s []

/-- Python `str.capitalize()`: first character uppercased, the rest
lowercased. -/
def pyCapitalize : List Char → List Char
  | [] => []
  | c :: t => Char.toUpper c :: t.map Char.toLower

/-- `DiscussionConverter.parse_fname` (lines 173-197): split the stem
into alphabetic runs; fewer than two runs raises `ValueError`
(the spec's `UnparsableFilename`); otherwise the capitalized first run
and the lowercased concatenation of the remaining runs. -/
def parse_fname (fname : List Char) : Except String (List Char × List Char) :=
  match findRuns (pyStem fname) with
  | a :: b :: rest =>
    .ok (pyCapitalize a, ((b :: rest).foldr (fun x acc => x ++ acc) []).map Char.toLower)
  | _ => .error "File name is not partitionable into two or more parts"

/-- JSON values, as far as the aggregator's output shape needs them. -/
inductive Json where
  | str : String → Json
  | arr : List Json → Json
  | obj : List (String × Json) → Json

/-- The keys of a JSON object. -/
def keysOf : Json → List String
  | .obj l => l.map Prod.fst
  | _ => []

/-- Hex digit character, lowercase, as `json.dumps` emits in `\uXXXX`:
code point 48 + v for the values 0-9, code point 87 + v (so `a`-`f`) for
the values 10-15. -/
def hexDigitCh (n : Nat) : Char :=
  if n % 16 < 10 then Char.ofNat (48 + n % 16) else Char.ofNat (87 + n % 16)

/-- Four-digit hex rendering for `\uXXXX`. -/
def hex4 (n : Nat) : List Char :=
  [hexDigitCh (n / 4096), hexDigitCh (n / 256), hexDigitCh (n / 16), hexDigitCh n]

/-- The escaping `json.dumps` (defaults, `ensure_ascii=True`) applies to
one character of a string. -/
def escapeChar (c : Char) : List Char :=
  if c = '"' then ['\\', '"']
  else if c = '\\' then ['\\', '\\']
  else if c = Char.ofNat 10 then ['\\', 'n']
  else if c = Char.ofNat 13 then ['\\', 'r']
  else if c = Char.ofNat 9 then ['\\', 't']
  else if c = Char.ofNat 8 then ['\\', 'b']
  else if c = Char.ofNat 12 then ['\\', 'f']
  else if c.toNat < 32 then ['\\', 'u'] ++ hex4 c.toNat
  else if c.toNat < 127 then [c]
  else if c.toNat < 65536 then ['\\', 'u'] ++ hex4 c.toNat
  else ['\\', 'u'] ++ hex4 (55296 + (c.toNat - 65536) / 1024) ++
       ['\\', 'u'] ++ hex4 (56320 + (c.toNat - 65536) % 1024)

/-- `json.dumps` of a Python string: quoted, characters escaped. -/
def pyJsonQuote (s : String) : List Char :=
  '"' :: (s.toList.map escapeChar).flatten ++ ['"']

/-- `json.dumps({cur_name : txt})` for the one-key turn objects written
by `rtf_to_jsonl` (line 211 of `discussion_converter.py`). -/
def dumpsTurn (name txt : String) : List Char :=
  Char.ofNat 123 :: (pyJsonQuote name ++ [':', ' '] ++ pyJsonQuote txt) ++ [Char.ofNat 125]

/-- The jsonl file content `rtf_to_jsonl` writes: one dumped turn plus a
newline per turn (fd.writelines of `json.dumps(line) + '\n'`). -/
def rtf_to_jsonl_content (turns : List (String × String)) : List Char :=
  (turns.map (fun t => dumpsTurn t.1 t.2 ++ [Char.ofNat 10])).flatten

/-- Python `fd.readlines()`: split after every newline, keeping the
newline; a trailing segment without a newline is kept too. -/
def pyReadlinesAux : List Char → List Char → List (List Char)
  | [], acc => if acc = [] then [] else [acc.reverse]
  | c :: t, acc =>
    if c = Char.ofNat 10 then (acc.reverse ++ [c]) :: pyReadlinesAux t []
    else pyReadlinesAux t (c :: acc)

/-- Python `fd.readlines()` on a file's content. -/
def pyReadlines (content : List Char) : List (List Char) :=
  pyReadlinesAux content []

/-- The record `DiscussionConverter.__init__` appends per jsonl file
(lines 129-141): keys `clientName`, `defense`, `conversation`, the last
holding the raw lines `fd.readlines()` returned. -/
def mk_case_record (client defense : String) (fileContent : List Char) : Json :=
  .obj [("clientName", .str client), ("defense", .str defense),
        ("conversation", .arr ((pyReadlines fileContent).map (fun l => .str ⟨l⟩)))]

/-! ### Helper lemmas about the scanners -/

theorem shiftM_zero (l : List (Nat × Nat)) : shiftM 0 l = l := by
  simp [shiftM]

theorem shiftM_shiftM (m n : Nat) (l : List (Nat × Nat)) :
    shiftM m (shiftM n l) = shiftM (n + m) l := by
  simp only [shiftM, List.map_map]
  congr 1
  funext p
  simp [Nat.add_assoc]

theorem shiftM_cons (n : Nat) (p : Nat × Nat) (l : List (Nat × Nat)) :
    shiftM n (p :: l) = (p.1 + n, p.2) :: shiftM n l := by
  simp [shiftM]

theorem digit_ne_markerCh {c : Char} (h : c.isDigit = true) : c ≠ markerCh := by
  intro heq
  subst heq
  exact absurd h (by decide)

theorem digitRun_of_not_digit (s : List Char) (h : startsWithDigit s = false) :
    digitRun s = 0 := by
  cases s with
  | nil => rfl
  | cons c t =>
    simp only [startsWithDigit] at h
    simp [digitRun, h]

theorem digitRun_append (d rest : List Char) (hd : ∀ c ∈ d, c.isDigit)
    (hr : startsWithDigit rest = false) : digitRun (d ++ rest) = d.length := by
  induction d with
  | nil => simpa using digitRun_of_not_digit rest hr
  | cons c t ih =>
    have hc : c.isDigit = true := hd c (by simp)
    simp [digitRun, hc, ih (fun x hx => hd x (by simp [hx]))]

theorem length_protTag (d : List Char) : (protTag d).length = 3 + d.length := by
  simp [protTag]
  omega

theorem findMatches_no_marker (s : List Char) (h : ∀ c ∈ s, c ≠ markerCh) :
    findMatches s = [] := by
  induction s with
  | nil => rfl
  | cons c t ih =>
    have hc : c ≠ markerCh := h c (by simp)
    rw [findMatches, if_neg (fun hand => hc hand.1),
        ih (fun x hx => h x (by simp [hx]))]
    rfl

theorem findMatches_append_left (pre rest : List Char) (h : ∀ c ∈ pre, c ≠ markerCh) :
    findMatches (pre ++ rest) = shiftM pre.length (findMatches rest) := by
  induction pre with
  | nil => simp [shiftM_zero]
  | cons c t ih =>
    have hc : c ≠ markerCh := h c (by simp)
    rw [List.cons_append, findMatches, if_neg (fun hand => hc hand.1),
        ih (fun x hx => h x (by simp [hx])), shiftM_shiftM]
    simp [Nat.add_comm]

theorem findMatches_protTag (d rest : List Char) (hd : d ≠ [])
    (hdd : ∀ c ∈ d, c.isDigit) (hr : startsWithDigit rest = false) :
    findMatches (protTag d ++ rest) =
      (0, 3 + d.length) :: shiftM (3 + d.length) (findMatches rest) := by
  obtain ⟨d0, d', rfl⟩ : ∃ d0 d', d = d0 :: d' := by
    cases d with
    | nil => exact absurd rfl hd
    | cons a b => exact ⟨a, b, rfl⟩
  have hd0 : d0.isDigit = true := hdd d0 (by simp)
  have hrun : digitRun ((d0 :: d') ++ rest) = (d0 :: d').length :=
    digitRun_append _ _ hdd hr
  have hdig : ∀ c ∈ (d0 :: d'), c ≠ markerCh := fun c hc => digit_ne_markerCh (hdd c hc)
  show findMatches (markerCh :: 'c' :: 'f' :: ((d0 :: d') ++ rest)) = _
  rw [findMatches, if_pos ⟨rfl, by simp [startsCfDigit, hd0]⟩]
  rw [findMatches, if_neg (fun hand => absurd hand.1 (by decide))]
  rw [findMatches, if_neg (fun hand => absurd hand.1 (by decide))]
  rw [findMatches_append_left _ _ hdig]
  rw [shiftM_shiftM, shiftM_shiftM, shiftM_shiftM]
  show ((0 : Nat), 3 + digitRun ((d0 :: d') ++ rest)) :: _ = _
  rw [hrun]
  congr 1
  congr 1
  omega

/-! ### Helper lemmas about list indexing and slicing -/

theorem get?_append_first {α : Type} (A : List α) (b : α) (t : List α) :
    (A ++ b :: t).get? A.length = some b := by
  induction A with
  | nil => rfl
  | cons a A ih => simpa using ih

theorem sliceFrom_append (A mid B : List Char) (a : Nat) :
    sliceFrom (A ++ mid ++ B) (A.length + a) (A.length + mid.length) = mid.drop a := by
  unfold sliceFrom
  rw [List.append_assoc, List.take_append mid.length]
  rw [List.take_left]
  rw [List.drop_append a]

theorem sliceFrom_self (s : List Char) (n : Nat) : sliceFrom s n n = [] := by
  unfold sliceFrom
  apply List.drop_eq_nil_of_le
  exact List.length_take_le n s

theorem stripSp_cons_space (t : List Char) : stripSp (' ' :: t) = t := by
  simp [stripSp]

theorem stripSp_cons_of_ne (c : Char) (t : List Char) (h : c ≠ ' ') :
    stripSp (c :: t) = c :: t := by
  simp [stripSp, h]

/-! ### One-step evaluation lemmas for the segmentation loop -/

/-- When the cursor sits at the start of `span` inside the cleaned text
and the next tag starts right after `span`, the sliced text of
lines 261-264 is exactly `span` with one leading space stripped. -/
theorem spanText_eq (A span B : List Char) (s0 : Char) (s' : List Char)
    (hspan : span = s0 :: s') :
    spanText (A ++ span ++ B) A.length (A.length + span.length) s0 = stripSp span := by
  subst hspan
  unfold spanText
  by_cases hsp : s0 = ' '
  · subst hsp
    rw [if_pos rfl, stripSp_cons_space]
    simpa using sliceFrom_append A (' ' :: s') B 1
  · rw [if_neg hsp, stripSp_cons_of_ne _ _ hsp]
    have := sliceFrom_append A (s0 :: s') B 0
    simpa using this

/-- Processing one marker whose preceding span is `span` (nonempty after
the one-space strip): the span is emitted with the pending name, and the
name resolved at this marker becomes pending. -/
theorem segLoop_cons_span (clean A span B : List Char) (names : List String)
    (ms : List (Nat × Nat)) (idx tagStart tagLen : Nat) (cur nm : String) (i : Nat)
    (hclean : clean = A ++ span ++ B) (hidx : idx = A.length)
    (hts : tagStart = A.length + span.length)
    (hnm : names.get? i = some nm) (hne : stripSp span ≠ []) :
    segLoop clean names ((tagStart, tagLen) :: ms) idx cur i =
      match segLoop clean names ms (tagStart + tagLen) nm (i + 1) with
      | .error e => .error e
      | .ok r => .ok (⟨cur, stripSp span⟩ :: r.1, r.2) := by
  obtain ⟨s0, s', hspan⟩ : ∃ s0 s', span = s0 :: s' := by
    cases span with
    | nil => exact absurd rfl hne
    | cons a b => exact ⟨a, b, rfl⟩
  have hget : clean.get? idx = some s0 := by
    rw [hclean, hidx, hspan, List.append_assoc]
    exact get?_append_first A s0 (s' ++ B)
  have hst : spanText clean idx tagStart s0 = stripSp span := by
    rw [hclean, hidx, hts]
    exact spanText_eq A span B s0 s' hspan
  rw [segLoop, hget, hnm]
  simp only [hst, if_neg hne]
  rcases h : segLoop clean names ms (tagStart + tagLen) nm (i + 1) with e | r
  · rfl
  · rcases r with ⟨turns, endIdx, endCur⟩
    rfl

/-- Processing one marker that immediately follows the previous tag
(zero-length span): nothing is emitted, but the name resolved at the
marker becomes pending.  `B` is the rest of the cleaned text, starting
with the marker itself (whose first character is not a space). -/
theorem segLoop_cons_marker (clean A B : List Char) (names : List String)
    (ms : List (Nat × Nat)) (idx tagStart tagLen : Nat) (cur nm : String) (i : Nat)
    (hclean : clean = A ++ B) (hidx : idx = A.length) (hts : tagStart = A.length)
    (hnm : names.get? i = some nm) (hB : ∃ c t, B = c :: t ∧ c ≠ ' ') :
    segLoop clean names ((tagStart, tagLen) :: ms) idx cur i =
      segLoop clean names ms (tagStart + tagLen) nm (i + 1) := by
  obtain ⟨c, t, hBe, hc⟩ := hB
  have hget : clean.get? idx = some c := by
    rw [hclean, hidx, hBe]
    exact get?_append_first A c t
  have hst : spanText clean idx tagStart c = [] := by
    unfold spanText
    rw [if_neg hc, hidx, hts]
    exact sliceFrom_self clean A.length
  rw [segLoop, hget, hnm]
  simp [hst]

theorem startsWithDigit_append (s r : List Char) (h : s ≠ []) :
    startsWithDigit (s ++ r) = startsWithDigit s := by
  cases s with
  | nil => exact absurd rfl h
  | cons a t => rfl

theorem ne_nil_of_stripSp_ne_nil {s : List Char} (h : stripSp s ≠ []) : s ≠ [] := by
  intro he
  exact h (by rw [he]; rfl)

/-- The post-loop emission (lines 287-298) when the cursor sits at the
start of the nonempty trailing span `post`. -/
theorem trailing_emit_append (clean A post : List Char) (idx : Nat) (cur : String)
    (hclean : clean = A ++ post) (hidx : idx = A.length) (hne : post ≠ []) :
    trailing_emit clean idx cur = .ok ⟨cur, stripSp post⟩ := by
  obtain ⟨p0, p', hpe⟩ : ∃ p0 p', post = p0 :: p' := by
    cases post with
    | nil => exact absurd rfl hne
    | cons a b => exact ⟨a, b, rfl⟩
  have hget : clean.get? idx = some p0 := by
    rw [hclean, hidx, hpe]
    exact get?_append_first A p0 p'
  rw [trailing_emit, hget]
  by_cases hsp : p0 = ' '
  · subst hsp
    have hdrop : clean.drop (idx + 1) = p' := by
      rw [hclean, hidx, hpe]
      simp
    rw [hpe, stripSp_cons_space]
    simp [hdrop]
  · have hdrop : clean.drop idx = post := by
      rw [hclean, hidx]
      exact List.drop_left A post
    rw [hpe, stripSp_cons_of_ne _ _ hsp]
    simp [hsp, hdrop, hpe]

/-! ### Claim theorems -/

/-- C1.  For every cleaned document of the shape
`pre ++ marker(d1) ++ mid ++ marker(d2) ++ post` — two protected color
markers leaving a nonempty span before the first marker, between the two,
and after the second (nonempty even after the one-leading-space strip),
with the spans free of the marker character and the text after each digit
group not starting with a further digit — and with the default color
`RGB(0,0,0)` absent from the tagmap (so the initially active label is
unresolved/empty), turn segmentation yields exactly three Turns, with
one-ahead label resolution: the pre-m1 span carries the empty initial
label, the span between the markers carries the label resolved at the
first marker, and the span after the second marker carries the label
resolved at the second marker. -/
theorem one_ahead_label_resolution
    (pre mid post d1 d2 : List Char) (la lb : String) (tagmap : List (String × String))
    (hpre : ∀ c ∈ pre, c ≠ markerCh) (hmid : ∀ c ∈ mid, c ≠ markerCh)
    (hpost : ∀ c ∈ post, c ≠ markerCh)
    (hd1 : d1 ≠ []) (hd1d : ∀ c ∈ d1, c.isDigit)
    (hd2 : d2 ≠ []) (hd2d : ∀ c ∈ d2, c.isDigit)
    (hmidD : startsWithDigit mid = false) (hpostD : startsWithDigit post = false)
    (hpreN : stripSp pre ≠ []) (hmidN : stripSp mid ≠ []) (hpostN : stripSp post ≠ [])
    (hblack : dictLookup tagmap "RGB(0,0,0)" = none) :
    output_txt_turns (pre ++ protTag d1 ++ mid ++ protTag d2 ++ post) [la, lb] tagmap =
      .ok [⟨"", stripSp pre⟩, ⟨la, stripSp mid⟩, ⟨lb, stripSp post⟩] := by
  have hmidne : mid ≠ [] := ne_nil_of_stripSp_ne_nil hmidN
  have hpostne : post ≠ [] := ne_nil_of_stripSp_ne_nil hpostN
  have hpost0 : findMatches post = [] := findMatches_no_marker post hpost
  have hX2 : findMatches (protTag d2 ++ post) =
      (0, 3 + d2.length) :: shiftM (3 + d2.length) (findMatches post) :=
    findMatches_protTag d2 post hd2 hd2d hpostD
  have hX1 : findMatches (mid ++ (protTag d2 ++ post)) =
      shiftM mid.length (findMatches (protTag d2 ++ post)) :=
    findMatches_append_left mid _ hmid
  have hT1 : findMatches (protTag d1 ++ (mid ++ (protTag d2 ++ post))) =
      (0, 3 + d1.length) ::
        shiftM (3 + d1.length) (findMatches (mid ++ (protTag d2 ++ post))) :=
    findMatches_protTag d1 _ hd1 hd1d
      (by rw [startsWithDigit_append _ _ hmidne]; exact hmidD)
  have hm : findMatches (pre ++ protTag d1 ++ mid ++ protTag d2 ++ post) =
      [(pre.length, 3 + d1.length),
       (pre.length + (3 + d1.length) + mid.length, 3 + d2.length)] := by
    have h0 : pre ++ protTag d1 ++ mid ++ protTag d2 ++ post =
        pre ++ (protTag d1 ++ (mid ++ (protTag d2 ++ post))) := by
      simp [List.append_assoc]
    rw [h0, findMatches_append_left pre _ hpre, hT1, hX1, hX2, hpost0]
    simp [shiftM, Prod.ext_iff]
    omega
  have hseg : segLoop (pre ++ protTag d1 ++ mid ++ protTag d2 ++ post) [la, lb]
      (findMatches (pre ++ protTag d1 ++ mid ++ protTag d2 ++ post)) 0 "" 0 =
      .ok ([⟨"", stripSp pre⟩, ⟨la, stripSp mid⟩],
           pre.length + (3 + d1.length) + mid.length + (3 + d2.length), lb) := by
    rw [hm]
    rw [segLoop_cons_span (pre ++ protTag d1 ++ mid ++ protTag d2 ++ post)
      [] pre (protTag d1 ++ mid ++ protTag d2 ++ post) [la, lb]
      _ 0 pre.length (3 + d1.length) "" la 0
      (by simp) rfl (by simp) rfl hpreN]
    rw [segLoop_cons_span (pre ++ protTag d1 ++ mid ++ protTag d2 ++ post)
      (pre ++ protTag d1) mid (protTag d2 ++ post) [la, lb]
      _ (pre.length + (3 + d1.length)) (pre.length + (3 + d1.length) + mid.length)
      (3 + d2.length) la lb 1
      (by simp [List.append_assoc]) (by simp [protTag]; omega)
      (by simp [protTag]; omega) rfl hmidN]
    rfl
  have htrail : trailing_emit (pre ++ protTag d1 ++ mid ++ protTag d2 ++ post)
      (pre.length + (3 + d1.length) + mid.length + (3 + d2.length)) lb =
      .ok ⟨lb, stripSp post⟩ :=
    trailing_emit_append _ (pre ++ protTag d1 ++ mid ++ protTag d2) post _ lb
      (by simp [List.append_assoc]) (by simp [protTag]; omega) hpostne
  unfold output_txt_turns
  rw [hblack]
  simp only [hseg, htrail]
  rfl

/-- C5 (amended).  In a cleaned document `pre ++ marker(d) ++ post`, the
source strips exactly one leading space from EVERY span — including the
initial span `pre`, which does not follow any marker — and preserves all
other leading and trailing whitespace verbatim: the emitted texts are
exactly `stripSp pre` and `stripSp post`, where `stripSp` removes one
leading space when present and nothing else. -/
theorem single_space_strip_every_span
    (pre post d : List Char) (l : String) (tagmap : List (String × String))
    (hpre : ∀ c ∈ pre, c ≠ markerCh) (hpost : ∀ c ∈ post, c ≠ markerCh)
    (hd : d ≠ []) (hdd : ∀ c ∈ d, c.isDigit)
    (hpostD : startsWithDigit post = false)
    (hpreN : stripSp pre ≠ []) (hpostN : stripSp post ≠ [])
    (hblack : dictLookup tagmap "RGB(0,0,0)" = none) :
    output_txt_turns (pre ++ protTag d ++ post) [l] tagmap =
      .ok [⟨"", stripSp pre⟩, ⟨l, stripSp post⟩] := by
  have hpostne : post ≠ [] := ne_nil_of_stripSp_ne_nil hpostN
  have hpost0 : findMatches post = [] := findMatches_no_marker post hpost
  have hm : findMatches (pre ++ protTag d ++ post) =
      [(pre.length, 3 + d.length)] := by
    have h0 : pre ++ protTag d ++ post = pre ++ (protTag d ++ post) := by
      simp [List.append_assoc]
    rw [h0, findMatches_append_left pre _ hpre,
        findMatches_protTag d post hd hdd hpostD, hpost0]
    simp [shiftM]
  have hseg : segLoop (pre ++ protTag d ++ post) [l]
      (findMatches (pre ++ protTag d ++ post)) 0 "" 0 =
      .ok ([⟨"", stripSp pre⟩], pre.length + (3 + d.length), l) := by
    rw [hm]
    rw [segLoop_cons_span (pre ++ protTag d ++ post)
      [] pre (protTag d ++ post) [l] _ 0 pre.length (3 + d.length) "" l 0
      (by simp) rfl (by simp) rfl hpreN]
    rfl
  have htrail : trailing_emit (pre ++ protTag d ++ post)
      (pre.length + (3 + d.length)) l = .ok ⟨l, stripSp post⟩ :=
    trailing_emit_append _ (pre ++ protTag d) post _ l
      (by simp [List.append_assoc]) (by simp [protTag]; omega) hpostne
  unfold output_txt_turns
  rw [hblack]
  simp only [hseg, htrail]
  rfl

/-- C9.  A marker immediately followed by another marker (zero-length
span) produces no Turn, but the label resolved at the first of the two
markers still becomes the pending label, which the label resolved at the
second marker then replaces, so the span after the second marker carries
the second marker's label: label-resolution ordering for subsequent spans
is unaffected. -/
theorem zero_length_span_advances_label
    (pre post d1 d2 : List Char) (la lb : String) (tagmap : List (String × String))
    (hpre : ∀ c ∈ pre, c ≠ markerCh) (hpost : ∀ c ∈ post, c ≠ markerCh)
    (hd1 : d1 ≠ []) (hd1d : ∀ c ∈ d1, c.isDigit)
    (hd2 : d2 ≠ []) (hd2d : ∀ c ∈ d2, c.isDigit)
    (hpostD : startsWithDigit post = false)
    (hpreN : stripSp pre ≠ []) (hpostN : stripSp post ≠ [])
    (hblack : dictLookup tagmap "RGB(0,0,0)" = none) :
    output_txt_turns (pre ++ protTag d1 ++ protTag d2 ++ post) [la, lb] tagmap =
      .ok [⟨"", stripSp pre⟩, ⟨lb, stripSp post⟩] := by
  have hpostne : post ≠ [] := ne_nil_of_stripSp_ne_nil hpostN
  have hpost0 : findMatches post = [] := findMatches_no_marker post hpost
  have hX2 : findMatches (protTag d2 ++ post) =
      (0, 3 + d2.length) :: shiftM (3 + d2.length) (findMatches post) :=
    findMatches_protTag d2 post hd2 hd2d hpostD
  have hT1 : findMatches (protTag d1 ++ (protTag d2 ++ post)) =
      (0, 3 + d1.length) :: shiftM (3 + d1.length) (findMatches (protTag d2 ++ post)) :=
    findMatches_protTag d1 _ hd1 hd1d
      (by
        simp only [protTag]
        rw [startsWithDigit_append _ _ (by simp)]
        simp only [startsWithDigit]
        decide)
  have hm : findMatches (pre ++ protTag d1 ++ protTag d2 ++ post) =
      [(pre.length, 3 + d1.length),
       (pre.length + (3 + d1.length), 3 + d2.length)] := by
    have h0 : pre ++ protTag d1 ++ protTag d2 ++ post =
        pre ++ (protTag d1 ++ (protTag d2 ++ post)) := by
      simp [List.append_assoc]
    rw [h0, findMatches_append_left pre _ hpre, hT1, hX2, hpost0]
    simp [shiftM, Prod.ext_iff]
    omega
  have hseg : segLoop (pre ++ protTag d1 ++ protTag d2 ++ post) [la, lb]
      (findMatches (pre ++ protTag d1 ++ protTag d2 ++ post)) 0 "" 0 =
      .ok ([⟨"", stripSp pre⟩],
           pre.length + (3 + d1.length) + (3 + d2.length), lb) := by
    rw [hm]
    rw [segLoop_cons_span (pre ++ protTag d1 ++ protTag d2 ++ post)
      [] pre (protTag d1 ++ protTag d2 ++ post) [la, lb]
      _ 0 pre.length (3 + d1.length) "" la 0
      (by simp) rfl (by simp) rfl hpreN]
    rw [segLoop_cons_marker (pre ++ protTag d1 ++ protTag d2 ++ post)
      (pre ++ protTag d1) (protTag d2 ++ post) [la, lb]
      _ (pre.length + (3 + d1.length)) (pre.length + (3 + d1.length))
      (3 + d2.length) la lb 1
      (by simp [List.append_assoc]) (by simp [protTag]; omega)
      (by simp [protTag]; omega) rfl
      ⟨markerCh, 'c' :: 'f' :: d2 ++ post, rfl, by decide⟩]
    rfl
  have htrail : trailing_emit (pre ++ protTag d1 ++ protTag d2 ++ post)
      (pre.length + (3 + d1.length) + (3 + d2.length)) lb =
      .ok ⟨lb, stripSp post⟩ :=
    trailing_emit_append _ (pre ++ protTag d1 ++ protTag d2) post _ lb
      (by simp [List.append_assoc]) (by simp [protTag]; omega) hpostne
  unfold output_txt_turns
  rw [hblack]
  simp only [hseg, htrail]
  rfl

/-- Witness for C1 at a concrete document: `Hi\x00cf1 yes\x00cf2 no`
with tag names `Expert` (resolved at the first marker) and `AI` (at the
second). -/
theorem one_ahead_label_resolution_witness :
    output_txt_turns
        (['H', 'i'] ++ protTag ['1'] ++ [' ', 'y', 'e', 's'] ++ protTag ['2'] ++
          [' ', 'n', 'o'])
        ["Expert", "AI"] [("RGB(74,21,148)", "Expert")] =
      .ok [⟨"", ['H', 'i']⟩, ⟨"Expert", ['y', 'e', 's']⟩, ⟨"AI", ['n', 'o']⟩] :=
  one_ahead_label_resolution ['H', 'i'] [' ', 'y', 'e', 's'] [' ', 'n', 'o']
    ['1'] ['2'] "Expert" "AI" [("RGB(74,21,148)", "Expert")]
    (by decide) (by decide) (by decide) (by decide) (by decide) (by decide)
    (by decide) (by decide) (by decide) (by decide) (by decide) (by decide)
    (by decide)

/-- Witness for C5's amended claim at a concrete document with
two-space-led spans `  a` and `  b`: exactly one space is stripped from
each span (including the pre-marker span), the second space survives. -/
theorem single_space_strip_every_span_witness :
    output_txt_turns ([' ', ' ', 'a'] ++ protTag ['7'] ++ [' ', ' ', 'b']) ["N"] [] =
      .ok [⟨"", [' ', 'a']⟩, ⟨"N", [' ', 'b']⟩] :=
  single_space_strip_every_span [' ', ' ', 'a'] [' ', ' ', 'b'] ['7'] "N" []
    (by decide) (by decide) (by decide) (by decide) (by decide) (by decide)
    (by decide) (by decide)

/-- Witness for C9 at a concrete document `x\x00cf1\x00cf2y`: the empty
span between the adjacent markers emits nothing, and the trailing span
carries the label resolved at the second marker. -/
theorem zero_length_span_advances_label_witness :
    output_txt_turns (['x'] ++ protTag ['1'] ++ protTag ['2'] ++ ['y']) ["A", "B"] [] =
      .ok [⟨"", ['x']⟩, ⟨"B", ['y']⟩] :=
  zero_length_span_advances_label ['x'] ['y'] ['1'] ['2'] "A" "B" []
    (by decide) (by decide) (by decide) (by decide) (by decide) (by decide)
    (by decide) (by decide) (by decide) (by decide)

/-- C5 counterexample.  On the cleaned text `' a\x00cf1b'` the initial
span `' a'` does not follow any marker, so by the claim its leading and
trailing whitespace should be preserved verbatim; but the code emits it
as `'a'` — the single leading space is stripped from the pre-marker span
too, so no emitted turn carries the verbatim text `' a'`. -/
theorem leading_space_stripped_before_any_marker :
    output_txt_turns ([' ', 'a'] ++ protTag ['1'] ++ ['b']) ["N"] [] =
      .ok [⟨"", ['a']⟩, ⟨"N", ['b']⟩] ∧
    ∀ t ∈ [Turn.mk "" ['a'], Turn.mk "N" ['b']], t.text ≠ [' ', 'a'] :=
  ⟨rfl, by decide⟩

/-- C4.  On the cleaned text `'a\x00cf1'`, whose final marker is the last
content of the text, the post-loop emission step evaluates
`clean_txt[idx]` with `idx = len(clean_txt)` and raises `IndexError`
instead of emitting the trailing (empty) turn: the run fails. -/
theorem trailing_emit_fails_when_marker_ends_text :
    output_txt_turns (['a'] ++ protTag ['1']) ["N"] [] =
      .error "string index out of range" := rfl

/-- C2.  The constructor's scan does pick the first candidate absent from
the document — for a document containing `'\x00'` (here the literal text
`\x00cf2x` followed by the color tag `\cf1y`) it picks `'\x01'` — but
`output_txt_script` substitutes the HARDCODED `'\x00'` for the tag's
backslash anyway, so the protected text contains two `'\x00'`-prefixed
pseudo-tags where the document had one real color tag; and a document
containing every candidate makes the pick fail (the `NoSafeMarkerChar`
path). -/
theorem marker_substitution_ignores_picked_char :
    pick_marker_char [Char.ofNat 0, 'c', 'f', '2', 'x', '\\', 'c', 'f', '1', 'y'] =
      some (Char.ofNat 1) ∧
    protect_color_tags [Char.ofNat 0, 'c', 'f', '2', 'x', '\\', 'c', 'f', '1', 'y'] =
      [Char.ofNat 0, 'c', 'f', '2', 'x', Char.ofNat 0, 'c', 'f', '1', 'y'] ∧
    (findAllBScf [Char.ofNat 0, 'c', 'f', '2', 'x', '\\', 'c', 'f', '1', 'y']).length = 1 ∧
    (findMatches
      (protect_color_tags [Char.ofNat 0, 'c', 'f', '2', 'x', '\\', 'c', 'f', '1', 'y'])).length
      = 2 ∧
    pick_marker_char UNLIKELY_CHARS = none := by
  refine ⟨rfl, rfl, rfl, rfl, rfl⟩

/-- C3.  `check_tagmap` never inspects the keys: a map whose key is not a
color spec at all passes (first conjunct, and in particular the
repository's real `{RGB-spec : name}` maps are never validated, third
conjunct); and as soon as one VALUE starts with `RGB` the function
returns that single value's validation, skipping the rest of the map
(second conjunct: the second entry's out-of-range value is never
examined). -/
theorem check_tagmap_ignores_keys :
    check_tagmap [("not a color", "Expert")] = .ok true ∧
    check_tagmap [("RGB(1,2,3)", "RGB(10,20,30)"), ("zzz", "RGB(999,0,0)")] = .ok true ∧
    check_tagmap [("RGB(74,21,148)", "Expert"), ("RGB(11,93,162)", "AI")] = .ok true :=
  ⟨rfl, rfl, rfl⟩

theorem enumFrom_map_fst_add_one {α : Type} (es : List α) (k : Nat) :
    (List.enumFrom k es).map (fun p => p.1 + 1) = List.range' (k + 1) es.length := by
  induction es generalizing k with
  | nil => rfl
  | cons a t ih =>
    show (k + 1) :: (List.enumFrom (k + 1) t).map (fun p => p.1 + 1) =
      (k + 1) :: List.range' (k + 2) t.length
    rw [ih (k + 1)]

theorem enumFrom_map_snd {α β : Type} (es : List α) (k : Nat) (f : α → β) :
    (List.enumFrom k es).map (fun p => f p.2) = es.map f := by
  induction es generalizing k with
  | nil => rfl
  | cons a t ih =>
    show f a :: (List.enumFrom (k + 1) t).map (fun p => f p.2) = f a :: t.map f
    rw [ih (k + 1)]

/-- C6.  `make_color_tbl` fails with the `MalformedDocument` error
exactly on documents without a recognizable color-declaration block; on
success, the palette's slots are exactly `1..N` in declaration order
(slot = position in the declared list + 1), its values being the
formatted declared triples in order. -/
theorem make_color_tbl_slots (rtf_content : List Char) :
    (findColortbl rtf_content = none →
      make_color_tbl rtf_content = .error "File does not contain an RTF color table") ∧
    (∀ pal, make_color_tbl rtf_content = .ok pal →
      pal.map Prod.fst = List.range' 1 pal.length ∧
      ∃ grp, findColortbl rtf_content = some grp ∧
        pal.map Prod.snd = (color_entries grp).map fmtRGB) := by
  constructor
  · intro h
    unfold make_color_tbl
    rw [h]
  · intro pal hpal
    unfold make_color_tbl at hpal
    cases h : findColortbl rtf_content with
    | none =>
      rw [h] at hpal
      exact absurd hpal (by simp)
    | some grp =>
      rw [h] at hpal
      have hp : pal = (color_entries grp).enum.map (fun p => (p.1 + 1, fmtRGB p.2)) := by
        cases hpal
        rfl
      subst hp
      refine ⟨?_, grp, rfl, ?_⟩
      · have hlen : ((color_entries grp).enum.map
            (fun p => (p.1 + 1, fmtRGB p.2))).length = (color_entries grp).length := by
          simp
        rw [hlen, List.map_map]
        show ((color_entries grp).enum.map (fun p => p.1 + 1)) = _
        exact enumFrom_map_fst_add_one (color_entries grp) 0
      · rw [List.map_map]
        show ((color_entries grp).enum.map (fun p => fmtRGB p.2)) = _
        exact enumFrom_map_snd (color_entries grp) 0 fmtRGB

/-- Witness for C6: a document without a declaration block errors, and a
document declaring the two triples (1,2,3) and (4,5,6) yields slots 1 and
2 with those colors in order. -/
theorem make_color_tbl_slots_witness :
    make_color_tbl (String.toList "no color table") =
      .error "File does not contain an RTF color table" ∧
    ([(1, "RGB(1,2,3)"), (2, "RGB(4,5,6)")] : List (Nat × String)).map Prod.fst =
      List.range' 1 ([(1, "RGB(1,2,3)"), (2, "RGB(4,5,6)")] : List (Nat × String)).length ∧
    ∃ grp,
      findColortbl
        (String.toList
          "\x7b\\colortbl;\\red1\\green2\\blue3;\\red4\\green5\\blue6;\x7d") = some grp ∧
      ([(1, "RGB(1,2,3)"), (2, "RGB(4,5,6)")] : List (Nat × String)).map Prod.snd =
        (color_entries grp).map fmtRGB := by
  refine ⟨(make_color_tbl_slots (String.toList "no color table")).1 rfl, ?_, ?_⟩
  · exact ((make_color_tbl_slots
      (String.toList
        "\x7b\\colortbl;\\red1\\green2\\blue3;\\red4\\green5\\blue6;\x7d")).2
      [(1, "RGB(1,2,3)"), (2, "RGB(4,5,6)")] rfl).1
  · exact ((make_color_tbl_slots
      (String.toList
        "\x7b\\colortbl;\\red1\\green2\\blue3;\\red4\\green5\\blue6;\x7d")).2
      [(1, "RGB(1,2,3)"), (2, "RGB(4,5,6)")] rfl).2

theorem runShape_append_lower (r : List Char) (c : Char) (hc : isLowerAZ c)
    (h : r = [] ∨ runShape r) : runShape (r ++ [c]) := by
  rcases h with rfl | ⟨hne, hsh⟩
  · refine ⟨by simp, Or.inl ?_⟩
    intro x hx
    simp at hx
    subst hx
    exact hc
  · refine ⟨by simp, ?_⟩
    rcases hsh with hall | ⟨u, t, rfl, hu, hlow⟩
    · refine Or.inl ?_
      intro x hx
      rcases List.mem_append.mp hx with h1 | h2
      · exact hall x h1
      · simp at h2
        subst h2
        exact hc
    · refine Or.inr ⟨u, t ++ [c], by simp, hu, ?_⟩
      intro x hx
      rcases List.mem_append.mp hx with h1 | h2
      · exact hlow x h1
      · simp at h2
        subst h2
        exact hc

theorem runsGo_shape (s : List Char) (acc : List Char)
    (hacc : acc = [] ∨ runShape acc.reverse) :
    ∀ r ∈ runsGo s acc, runShape r := by
  induction s generalizing acc with
  | nil =>
    intro r hr
    rcases hacc with rfl | hsh
    · simp [runsGo] at hr
    · have hne : acc ≠ [] := by
        intro h
        rw [h] at hsh
        exact hsh.1 rfl
      rw [runsGo, if_neg hne] at hr
      simp at hr
      subst hr
      exact hsh
  | cons c t ih =>
    intro r hr
    have haccrev : acc.reverse = [] ∨ runShape acc.reverse := by
      rcases hacc with rfl | hsh
      · exact Or.inl rfl
      · exact Or.inr hsh
    by_cases hl : isLowerAZ c
    · rw [runsGo, if_pos hl] at hr
      refine ih (c :: acc) (Or.inr ?_) r hr
      show runShape (c :: acc).reverse
      rw [List.reverse_cons]
      exact runShape_append_lower acc.reverse c hl haccrev
    · by_cases hu : isUpperAZ c
      · rw [runsGo, if_neg hl, if_pos hu] at hr
        have hshape : runShape [c] := ⟨by simp, Or.inr ⟨c, [], rfl, hu, by simp⟩⟩
        by_cases hae : acc = []
        · rw [if_pos hae] at hr
          exact ih [c] (Or.inr hshape) r hr
        · rw [if_neg hae] at hr
          rcases List.mem_cons.mp hr with rfl | hr2
          · rcases hacc with rfl | hsh
            · exact absurd rfl hae
            · exact hsh
          · exact ih [c] (Or.inr hshape) r hr2
      · rw [runsGo, if_neg hl, if_neg hu] at hr
        by_cases hae : acc = []
        · rw [if_pos hae] at hr
          exact ih [] (Or.inl rfl) r hr
        · rw [if_neg hae] at hr
          rcases List.mem_cons.mp hr with rfl | hr2
          · rcases hacc with rfl | hsh
            · exact absurd rfl hae
            · exact hsh
          · exact ih [] (Or.inl rfl) r hr2

/-- C7.  `parse_fname` (i) parses the claim's example
`marcelCharacterDefense.ext` to clientName `Marcel` and category
`characterdefense`; (ii) fails exactly when the stem splits into fewer
than two alphabetic runs; (iii) on success returns the capitalized first
run and the lowercased concatenation of all remaining runs; and (iv)
every run produced by the splitter obeys the lower/upper-case boundary
rule: nonempty and either all-lowercase or one uppercase letter followed
by lowercase letters. -/
theorem parse_fname_spec :
    parse_fname (String.toList "marcelCharacterDefense.ext") =
      .ok (String.toList "Marcel", String.toList "characterdefense") ∧
    (∀ fname : List Char,
      ((findRuns (pyStem fname)).length < 2 ↔ ∃ e, parse_fname fname = .error e)) ∧
    (∀ fname a rest, findRuns (pyStem fname) = a :: rest → rest ≠ [] →
      parse_fname fname =
        .ok (pyCapitalize a, (rest.foldr (fun x acc => x ++ acc) []).map Char.toLower)) ∧
    (∀ s r, r ∈ findRuns s → runShape r) := by
  refine ⟨rfl, ?_, ?_, ?_⟩
  · intro fname
    cases h : findRuns (pyStem fname) with
    | nil => simp [parse_fname, h]
    | cons a rest =>
      cases rest with
      | nil => simp [parse_fname, h]
      | cons b r2 => simp [parse_fname, h]
  · intro fname a rest h hne
    cases rest with
    | nil => exact absurd rfl hne
    | cons b r2 =>
      unfold parse_fname
      rw [h]
  · intro s r hr
    exact runsGo_shape s [] (Or.inl rfl) r hr

/-- Witness for C7 at concrete inputs: the single-run stem `abc.rtf`
fails, and `meganDenial.rtf` parses to `Megan` / `denial`. -/
theorem parse_fname_spec_witness :
    ((findRuns (pyStem (String.toList "abc.rtf"))).length < 2 ↔
      ∃ e, parse_fname (String.toList "abc.rtf") = .error e) ∧
    parse_fname (String.toList "meganDenial.rtf") =
      .ok (String.toList "Megan", String.toList "denial") ∧
    runShape (String.toList "Denial") := by
  refine ⟨parse_fname_spec.2.1 (String.toList "abc.rtf"), ?_, ?_⟩
  · exact parse_fname_spec.2.2.1 (String.toList "meganDenial.rtf")
      (String.toList "megan") [String.toList "Denial"] rfl (by simp)
  · exact parse_fname_spec.2.2.2 (String.toList "meganDenial")
      (String.toList "Denial") (by decide)

theorem hexDigitCh_ne_newline (n : Nat) : hexDigitCh n ≠ Char.ofNat 10 := by
  unfold hexDigitCh
  have h : n % 16 < 16 := Nat.mod_lt _ (by omega)
  set k := n % 16 with hk
  interval_cases k <;> decide

theorem newline_not_mem_hex4 (n : Nat) : Char.ofNat 10 ∉ hex4 n := by
  intro h
  simp only [hex4, List.mem_cons, List.not_mem_nil, or_false] at h
  rcases h with h | h | h | h <;> exact hexDigitCh_ne_newline _ h.symm

theorem newline_not_mem_escapeChar (c : Char) : Char.ofNat 10 ∉ escapeChar c := by
  intro h
  unfold escapeChar at h
  by_cases h1 : c = '"'
  · rw [if_pos h1] at h
    exact absurd h (by decide)
  rw [if_neg h1] at h
  by_cases h2 : c = '\\'
  · rw [if_pos h2] at h
    exact absurd h (by decide)
  rw [if_neg h2] at h
  by_cases h3 : c = Char.ofNat 10
  · rw [if_pos h3] at h
    exact absurd h (by decide)
  rw [if_neg h3] at h
  by_cases h4 : c = Char.ofNat 13
  · rw [if_pos h4] at h
    exact absurd h (by decide)
  rw [if_neg h4] at h
  by_cases h5 : c = Char.ofNat 9
  · rw [if_pos h5] at h
    exact absurd h (by decide)
  rw [if_neg h5] at h
  by_cases h6 : c = Char.ofNat 8
  · rw [if_pos h6] at h
    exact absurd h (by decide)
  rw [if_neg h6] at h
  by_cases h7 : c = Char.ofNat 12
  · rw [if_pos h7] at h
    exact absurd h (by decide)
  rw [if_neg h7] at h
  by_cases h8 : c.toNat < 32
  · rw [if_pos h8] at h
    rcases List.mem_append.mp h with hm | hm
    · exact absurd hm (by decide)
    · exact newline_not_mem_hex4 _ hm
  rw [if_neg h8] at h
  by_cases h9 : c.toNat < 127
  · rw [if_pos h9] at h
    simp only [List.mem_singleton] at h
    exact h3 h.symm
  rw [if_neg h9] at h
  by_cases h10 : c.toNat < 65536
  · rw [if_pos h10] at h
    rcases List.mem_append.mp h with hm | hm
    · exact absurd hm (by decide)
    · exact newline_not_mem_hex4 _ hm
  rw [if_neg h10] at h
  rcases List.mem_append.mp h with hm | hm
  · rcases List.mem_append.mp hm with hm2 | hm2
    · rcases List.mem_append.mp hm2 with hm3 | hm3
      · exact absurd hm3 (by decide)
      · exact newline_not_mem_hex4 _ hm3
    · exact absurd hm2 (by decide)
  · exact newline_not_mem_hex4 _ hm

theorem newline_not_mem_pyJsonQuote (s : String) : Char.ofNat 10 ∉ pyJsonQuote s := by
  intro h
  unfold pyJsonQuote at h
  rcases List.mem_cons.mp h with h | h
  · exact absurd h.symm (by decide)
  · rcases List.mem_append.mp h with h | h
    · rcases List.mem_flatten.mp h with ⟨l, hl, hmem⟩
      rcases List.mem_map.mp hl with ⟨c, _, rfl⟩
      exact newline_not_mem_escapeChar c hmem
    · simp only [List.mem_singleton] at h
      exact absurd h.symm (by decide)

theorem newline_not_mem_dumpsTurn (k v : String) : Char.ofNat 10 ∉ dumpsTurn k v := by
  intro h
  unfold dumpsTurn at h
  rcases List.mem_cons.mp h with h | h
  · exact absurd h.symm (by decide)
  · rcases List.mem_append.mp h with h | h
    · rcases List.mem_append.mp h with h | h
      · rcases List.mem_append.mp h with h | h
        · exact newline_not_mem_pyJsonQuote k h
        · revert h
          decide
      · exact newline_not_mem_pyJsonQuote v h
    · simp only [List.mem_singleton] at h
      exact absurd h.symm (by decide)

theorem pyReadlinesAux_line (l rest acc : List Char) (hl : Char.ofNat 10 ∉ l) :
    pyReadlinesAux (l ++ Char.ofNat 10 :: rest) acc =
      (acc.reverse ++ l ++ [Char.ofNat 10]) :: pyReadlinesAux rest [] := by
  induction l generalizing acc with
  | nil => simp [pyReadlinesAux]
  | cons c t ih =>
    have hc : c ≠ Char.ofNat 10 := by
      intro h
      exact hl (by simp [h])
    show pyReadlinesAux (c :: (t ++ Char.ofNat 10 :: rest)) acc = _
    rw [pyReadlinesAux, if_neg hc, ih (c :: acc) (fun h => hl (by simp [h]))]
    simp

/-- `readlines` after `writelines` of newline-terminated jsonl lines
returns exactly those lines: one line per turn. -/
theorem pyReadlines_jsonl (turns : List (String × String)) :
    pyReadlines (rtf_to_jsonl_content turns) =
      turns.map (fun t => dumpsTurn t.1 t.2 ++ [Char.ofNat 10]) := by
  unfold pyReadlines rtf_to_jsonl_content
  induction turns with
  | nil => rfl
  | cons t ts ih =>
    have hstep : (dumpsTurn t.1 t.2 ++ [Char.ofNat 10]) ++
        (ts.map (fun u => dumpsTurn u.1 u.2 ++ [Char.ofNat 10])).flatten =
        dumpsTurn t.1 t.2 ++ Char.ofNat 10 ::
          (ts.map (fun u => dumpsTurn u.1 u.2 ++ [Char.ofNat 10])).flatten := by
      simp
    show pyReadlinesAux ((dumpsTurn t.1 t.2 ++ [Char.ofNat 10]) ++
        (ts.map (fun u => dumpsTurn u.1 u.2 ++ [Char.ofNat 10])).flatten) [] = _
    rw [hstep, pyReadlinesAux_line _ _ [] (newline_not_mem_dumpsTurn t.1 t.2), ih]
    simp

/-- C8 counterexample.  The record the aggregator builds carries the keys
`clientName`, `defense`, `conversation` — there is no `category` key, so
the claimed key set is wrong. -/
theorem case_record_has_defense_not_category :
    keysOf (mk_case_record "Adam" "denial" []) = ["clientName", "defense", "conversation"] ∧
    "category" ∉ keysOf (mk_case_record "Adam" "denial" []) :=
  ⟨rfl, by decide⟩

/-- C8 (amended).  The record built for a document whose jsonl file holds
the dumped turns has exactly the keys `clientName`, `defense` and
`conversation`, and `conversation` is an ordered array of STRINGS, one
per Turn, each being the `json.dumps` serialization of the one-key turn
object followed by a newline — not an array of parsed one-key objects. -/
theorem case_record_shape (client defense : String) (turns : List (String × String)) :
    mk_case_record client defense (rtf_to_jsonl_content turns) =
      .obj [("clientName", Json.str client), ("defense", Json.str defense),
            ("conversation", Json.arr (turns.map
              (fun t => Json.str ⟨dumpsTurn t.1 t.2 ++ [Char.ofNat 10]⟩)))] ∧
    (turns.map (fun t => Json.str ⟨dumpsTurn t.1 t.2 ++ [Char.ofNat 10]⟩)).length =
      turns.length := by
  constructor
  · unfold mk_case_record
    rw [pyReadlines_jsonl]
    simp [List.map_map]
  · simp

theorem takeWhile_nil_of_not_digit (l : List Char) (h : startsWithDigit l = false) :
    l.takeWhile Char.isDigit = [] := by
  cases l with
  | nil => rfl
  | cons c t =>
    simp only [startsWithDigit] at h
    simp [List.takeWhile_cons, h]

theorem hasBadCf_mem_findAllBScf (s : List Char) (h : hasBadCf s = true) :
    ∃ p ∈ findAllBScf s, p.2 = ([] : List Char) := by
  induction s with
  | nil => simp [hasBadCf] at h
  | cons c t ih =>
    simp only [hasBadCf, Bool.or_eq_true, Bool.and_eq_true, Bool.not_eq_true',
      decide_eq_true_eq] at h
    rcases h with ⟨⟨hc, hcf⟩, hnd⟩ | hrec
    · refine ⟨(0, (t.drop 2).takeWhile Char.isDigit), ?_, ?_⟩
      · rw [findAllBScf, if_pos ⟨hc, hcf⟩]
        exact List.mem_cons_self _ _
      · exact takeWhile_nil_of_not_digit _ hnd
    · obtain ⟨p, hp, hpe⟩ := ih hrec
      refine ⟨(p.1 + 1, p.2), ?_, hpe⟩
      rw [findAllBScf]
      by_cases hcond : c = '\\' ∧ startsCf t
      · rw [if_pos hcond]
        exact List.mem_cons_of_mem _ (List.mem_map.mpr ⟨p, hp, rfl⟩)
      · rw [if_neg hcond]
        exact List.mem_map.mpr ⟨p, hp, rfl⟩

theorem tags_of_occs_error_of_empty (dict : List (Nat × String))
    (l : List (Nat × List Char)) (h : ∃ p ∈ l, p.2 = ([] : List Char)) :
    ∃ msg, tags_of_occs dict l = .error msg := by
  induction l with
  | nil => simp at h
  | cons q rest ih =>
    obtain ⟨p, hp, hpe⟩ := h
    rcases q with ⟨st, ds⟩
    by_cases hds : ds = []
    · exact ⟨_, by rw [tags_of_occs, if_pos hds]⟩
    · rw [tags_of_occs, if_neg hds]
      have hrest : ∃ p ∈ rest, p.2 = ([] : List Char) := by
        rcases List.mem_cons.mp hp with heq | hmem
        · rw [heq] at hpe
          exact absurd hpe hds
        · exact ⟨p, hmem, hpe⟩
      cases hlk : lookupNat dict (digitsVal ds) with
      | none => exact ⟨_, rfl⟩
      | some rgb =>
        obtain ⟨msg, hmsg⟩ := ih hrest
        rw [hmsg]
        exact ⟨msg, rfl⟩

/-- C10.  Whenever the raw document contains the escape `\cf` not
followed by at least one digit, the color-tag scan raises an error and
the whole parse of the document aborts, whatever the color dict is:
the occurrence is never skipped, even though a color-change marker is
`\cf` plus one or more digits. -/
theorem bad_cf_aborts_scan (s : List Char) (dict : List (Nat × String))
    (h : hasBadCf s = true) : ∃ msg, color_tag_gen dict s = .error msg := by
  unfold color_tag_gen
  exact tags_of_occs_error_of_empty dict _ (hasBadCf_mem_findAllBScf s h)

/-- Witness for C10 on the test suite's own malformed input
`foo\cf bar`. -/
theorem bad_cf_aborts_scan_witness :
    hasBadCf (String.toList "foo\\cf bar") = true ∧
    ∃ msg, color_tag_gen [(1, "RGB(1,2,3)")] (String.toList "foo\\cf bar") = .error msg :=
  ⟨by decide, bad_cf_aborts_scan (String.toList "foo\\cf bar") [(1, "RGB(1,2,3)")] (by decide)⟩

end RTF
